import Mathlib

/-!
Shallow embedding of the prompting-subnet repository (validator step loop,
human agent, summarization task configuration, relevance reward model and
the zephyr miner), together with theorems settling the frozen claims.

External effects (LLM generation, network RPC, random sampling, wall-clock
time) are passed in as oracle functions; the control flow and data handling
around them are translated from the Python source.
-/

namespace Prompting

/-- A user persona (`prompting/persona.py`): only the fields the agent reads. -/
structure Persona where
  mood : String
  tone : String
deriving Repr, DecidableEq

/-- The mutable state of a `Task` that the agent and the step loop read and
write: completion flag, reward threshold and the reference answer. -/
structure TaskState where
  complete : Bool
  reward_threshold : ℚ
  reference : String
deriving Repr, DecidableEq

/-- One chat message, as stored in the agent message list
(dicts with `content` and `role` keys in the source). -/
structure Message where
  content : String
  role : String
deriving Repr, DecidableEq

/-- The state of a `HumanAgent` (`prompting/agent.py`). -/
structure AgentState where
  persona : Persona
  task : TaskState
  messages : List Message
  challenge : String
  system_prompt : String
deriving Repr, DecidableEq

namespace HumanAgent

/-- Source `HumanAgent.progress`: `int(self.task.complete)`. -/
def progress (a : AgentState) : Nat :=
  if a.task.complete then 1 else 0

/-- Source `HumanAgent.finished`: `self.progress == 1`. -/
def finished (a : AgentState) : Bool :=
  progress a == 1

/-- Source `HumanAgent.update_progress(top_reward, top_response, continue_conversation)`.
If `top_reward > task.reward_threshold` the task is marked complete and the
response is appended to the message list with role `user`; otherwise, when
`continue_conversation` is set, the conversation continues through the LLM
(the oracle `continueConv`); otherwise nothing changes. -/
def update_progress (continueConv : AgentState → String → AgentState)
    (a : AgentState) (top_reward : ℚ) (top_response : String)
    (continue_conversation : Bool) : AgentState :=
  if a.task.reward_threshold < top_reward then
    { a with
      task := { a.task with complete := true },
      messages := a.messages ++ [{ content := top_response, role := "user" }] }
  else if continue_conversation then
    continueConv a top_response
  else
    a

/-- Strip the characters of `cs` from both ends of `s`
(Python `str.strip(' "')` in `create_challenge`). -/
def stripChars (cs : List Char) (s : String) : String :=
  String.mk (((s.data.dropWhile (· ∈ cs)).reverse.dropWhile (· ∈ cs)).reverse)

/-- The character set of `.strip(' "')`: a space and a double quote. -/
def stripSet : List Char := [' ', Char.ofNat 34]

/-- Source `HumanAgent.__init__`. The attribute `self.persona` is assigned only in
the `persona is None` branch; the construction of the system prompt then
reads `self.persona.mood`, which raises `AttributeError` when the attribute
was never assigned. Oracles: `createPersona` for `create_persona()`,
`format` for the template `.format(...)` call, and `llmChallenge` for the
LLM round trip of `create_challenge` (from system prompt to raw answer). -/
def init (createPersona : Persona)
    (format : String → Persona → TaskState → String)
    (llmChallenge : String → String)
    (task : TaskState) (system_template : Option String)
    (persona : Option Persona) (begin_conversation : Bool) :
    Except String AgentState :=
  let personaAttr : Option Persona :=
    match persona with
    | none => some createPersona
    | some _ => none
  match personaAttr with
  | none => Except.error "AttributeError: HumanAgent object has no attribute persona"
  | some p =>
    let template := system_template.getD "system_prompt_template"
    let sysPrompt := format template p task
    let challenge :=
      if begin_conversation then stripChars stripSet (llmChallenge sysPrompt) else ""
    Except.ok
      { persona := p
        task := task
        messages := []
        challenge := challenge
        system_prompt := sysPrompt }

end HumanAgent

/-! ### Summarization task configuration (`prompting/tasks/summarization.py`) -/

/-- A value occurring in a reward/penalty definition dict. -/
inductive ParamValue
  | str (s : String)
  | num (q : ℚ)
  | null
deriving Repr, DecidableEq, BEq

/-- A reward-model definition dict, as a key-value list. -/
abbrev RewardDef := List (String × ParamValue)

namespace SummarizationTask

/-- Source `SummarizationTask.reward_definition`. -/
def reward_definition : List RewardDef :=
  [ [("name", .str "rouge"), ("ngram", .str "rouge-l"), ("metric", .str "f"),
     ("weight", .num 1)],
    [("name", .str "relevance"), ("threshold", .null), ("weight", .num 1)] ]

/-- Source `SummarizationTask.penalty_definition`. -/
def penalty_definition : List RewardDef :=
  [ [("name", .str "rouge"), ("ngram", .str "rouge-1"), ("metric", .str "f"),
     ("weight", .num 1)],
    [("name", .str "relevance"), ("threshold", .null), ("weight", .num 1)] ]

end SummarizationTask

/-! ### Validator step (`prompting/forward.py`, `run_step`) -/

/-- The `Prompting` synapse as built and sent by `run_step`:
role list and message list. -/
structure PromptingSyn where
  roles : List String
  messages : List String
  completion : String
deriving Repr, DecidableEq

/-- Modelled from the spec: `get_random_uids` lives in `utils.py`, which is
not part of the sources; per the spec the validator "dispatches it to a
subset of miner nodes", sampling `k` uids while excluding `exclude`. We
model the randomness by an oracle `order`, the duplicate-free sequence of
available uids in the sampled order, and take the first `k` of those not
excluded. -/
def get_random_uids (order : List Nat) (k : Nat) (exclude : List Nat) : List Nat :=
  (order.filter (fun u => decide (u ∉ exclude))).take k

/-- The uids queried by one `run_step` call:
`get_random_uids(self, k=k, exclude=exclude)`. -/
def run_step_uids (order : List Nat) (k : Nat) (exclude : List Nat) : List Nat :=
  get_random_uids order k exclude

/-- The synapse dispatched by `run_step`:
`Prompting(roles=["user"], messages=[agent.challenge])`. -/
def run_step_synapse (agent : AgentState) : PromptingSyn :=
  { roles := ["user"], messages := [agent.challenge], completion := "" }

/-- Modelled from the spec: `self.update_scores` is defined outside the
sources; per the spec the validator "updates a moving-average score per
miner" ("simple moving averages"), blending each queried uid's reward into
its score with factor `alpha` and leaving every other uid's score as it is. -/
def update_scores (alpha : ℚ) (scores : Nat → ℚ) (uids : List Nat)
    (rewards : List ℚ) : Nat → ℚ :=
  fun j =>
    match (uids.zip rewards).find? (fun p => p.1 == j) with
    | some p => alpha * p.2 + (1 - alpha) * scores j
    | none => scores j

/-- Torch `tensor.max()` over a reward list; raises on an empty tensor. -/
def listMax? : List ℚ → Option ℚ
  | [] => none
  | x :: xs => some (xs.foldl max x)

/-- The observable outcome of one `run_step` call. -/
structure StepResult where
  uids : List Nat
  timeoutUsed : ℚ
  synapseSent : PromptingSyn
  rewards : List ℚ
  agentAfter : AgentState
  scoresAfter : Nat → ℚ

/-- Source `run_step(self, agent, k, timeout, exclude)`: sample uids, dispatch the
synapse to them with the timeout, collect one completion per queried uid
(oracle `respond`, the batch dendrite RPC), score the completions against
the task reference (oracle `rewardOne`, the reward pipeline, one scalar per
completion), take the top reward and response (`max` / `argmax`), update the
agent's progress and the moving-average scores. `max()` on an empty reward
tensor raises. -/
def run_step (respond : Nat → String) (rewardOne : String → String → ℚ)
    (continueConv : AgentState → String → AgentState)
    (alpha : ℚ) (scores : Nat → ℚ) (agent : AgentState)
    (order : List Nat) (k : Nat) (timeout : ℚ) (exclude : List Nat) :
    Except String StepResult :=
  let uids := run_step_uids order k exclude
  let synapse := run_step_synapse agent
  let completions := uids.map respond
  let rewards := completions.map (rewardOne agent.task.reference)
  match listMax? rewards with
  | none => Except.error "max(): expected reduction dim, tensor is empty"
  | some top_reward =>
    let top_response := completions.getD (rewards.indexOf top_reward) ""
    let agentAfter :=
      HumanAgent.update_progress continueConv agent top_reward top_response false
    let scoresAfter := update_scores alpha scores uids rewards
    Except.ok
      { uids := uids
        timeoutUsed := timeout
        synapseSent := synapse
        rewards := rewards
        agentAfter := agentAfter
        scoresAfter := scoresAfter }

/-! ### The conversation loop of `forward` (`prompting/forward.py`) -/

/-- The `while not agent.finished` loop of `forward`, counting calls to
`run_step`. `f c` tells whether the agent is finished once `c` steps have
run (the loop guard), `d c` whether the random draw after the `c`-th step
fell below `termination_probability`. Each iteration runs one step, then
breaks when `rounds > max_turns` or the draw fires, else increments
`rounds` and re-enters the guard. Returns the total number of `run_step`
calls. -/
def forwardLoop (f d : Nat → Bool) (max_turns : Nat) (calls rounds : Nat) : Nat :=
  if f calls then calls
  else if h : max_turns < rounds ∨ d calls = true then calls + 1
  else forwardLoop f d max_turns (calls + 1) (rounds + 1)
termination_by max_turns + 1 - rounds
decreasing_by
  push_neg at h
  omega

/-- The per-round queried uid lists of one `forward` conversation:
round `i` samples with oracle order `os[i]` against the accumulated
`exclude_uids`, which then grows by the uids of that round
(`exclude_uids += event['uids']`). -/
def forwardRounds (k : Nat) : List (List Nat) → List Nat → List (List Nat)
  | [], _ => []
  | o :: os, exclude =>
    let uids := run_step_uids o k exclude
    uids :: forwardRounds k os (exclude ++ uids)

/-! ### Zephyr miner (`neurons/miners/zephyr/miner.py`) -/

namespace ZephyrMiner

/-- Source `ZephyrMiner.forward(synapse)`: inside `try`, take the last element of
`synapse.messages` (an empty list raises `IndexError`), query the model with
it (oracle `query`; `Except.error` stands for a raised exception), and set
`synapse.completion` to the response. Any exception is caught and turns into
the completion `"Error: " ++ message`; `finally: return synapse` means the
call always returns the synapse. -/
def forward (query : String → Except String String) (synapse : PromptingSyn) :
    PromptingSyn :=
  let tryBody : Except String PromptingSyn :=
    match synapse.messages.getLast? with
    | none => Except.error "list index out of range"
    | some prompt =>
      match query prompt with
      | Except.error e => Except.error e
      | Except.ok response => Except.ok { synapse with completion := response }
  match tryBody with
  | Except.ok s => s
  | Except.error e => { synapse with completion := "Error: " ++ e }

end ZephyrMiner

/-! ### Relevance reward model (`prompting/rewards/relevance.py`) -/

namespace RelevanceRewardModel

/-- Dot product of two embedding vectors of dimension `d` (the embeddings of
one model share their dimension; entries are modelled as rationals). -/
def dotQ {d : Nat} (x y : Fin d → ℚ) : ℚ := ∑ i, x i * y i

/-- Torch `cosine_similarity(x, y)` on the two reshaped embeddings:
the dot product divided by the product of the norms, each norm clamped from
below by the default `eps = 1e-8`. -/
noncomputable def cosine_similarity {d : Nat} (x y : Fin d → ℚ) : ℝ :=
  (dotQ x y : ℝ) /
    (max (Real.sqrt ((dotQ x x : ℚ) : ℝ)) (1 / 10 ^ 8) *
      max (Real.sqrt ((dotQ y y : ℚ) : ℝ)) (1 / 10 ^ 8))

/-- The `BatchRewardOutput` built by `RelevanceRewardModel.reward`: a reward
and a timing per completion, plus the threshold as extra info. -/
structure BatchRewardOutput where
  rewards : List ℝ
  timings : List ℝ
  threshold : Option ℚ

/-- Source `RelevanceRewardModel.reward(reference, completions)`: encode the
reference and every completion (oracle `encode`, the AnglE model), then for
each completion record the cosine similarity between the reference embedding
and that completion's embedding, and the wall-clock time the computation took
(oracle `timing`). -/
noncomputable def reward {d : Nat} (encode : String → Fin d → ℚ)
    (timing : Nat → ℝ) (threshold : Option ℚ)
    (reference : String) (completions : List String) : BatchRewardOutput :=
  { rewards :=
      completions.map fun c => cosine_similarity (encode reference) (encode c)
    timings := (List.range completions.length).map timing
    threshold := threshold }

end RelevanceRewardModel

/-! ### Concrete fixtures used by witnesses and counterexamples -/

/-- A concrete task state: not complete, threshold 2. -/
def wTask : TaskState :=
  { complete := false, reward_threshold := 2, reference := "ref" }

/-- A concrete persona. -/
def wPersona : Persona := { mood := "a neutral", tone := "casual" }

/-- A concrete agent with an empty message history. -/
def wAgent : AgentState :=
  { persona := wPersona, task := wTask, messages := [], challenge := "q",
    system_prompt := "sys" }

/-- A concrete agent whose accumulated history has two messages. -/
def wAgent2 : AgentState :=
  { persona := wPersona, task := wTask,
    messages := [{ content := "sys", role := "system" },
                 { content := "hi", role := "user" }],
    challenge := "q", system_prompt := "sys" }

/-! ### Claims -/

/-- C9: for every `HumanAgent`, `progress` is `1` when `task.complete` holds
and `0` otherwise (that is, the numeral of the flag), and `finished` holds
exactly when `task.complete` does. -/
theorem agent_progress_finished_spec (a : AgentState) :
    HumanAgent.progress a = a.task.complete.toNat
    ∧ (HumanAgent.finished a = true ↔ a.task.complete = true) := by
  constructor
  · cases h : a.task.complete <;> simp [HumanAgent.progress, h]
  · cases h : a.task.complete <;>
      simp [HumanAgent.finished, HumanAgent.progress, h]

/-- C2: with the default `continue_conversation = False` (as `run_step` calls
it), `update_progress` marks the task complete and appends the top response
to the message list exactly when `top_reward` exceeds `task.reward_threshold`;
otherwise the whole agent state is unchanged. -/
theorem update_progress_default_spec (cc : AgentState → String → AgentState)
    (a : AgentState) (r : ℚ) (resp : String) :
    ((HumanAgent.update_progress cc a r resp false).task.complete = true
        ∧ (HumanAgent.update_progress cc a r resp false).messages
            = a.messages ++ [{ content := resp, role := "user" }]
      ↔ a.task.reward_threshold < r)
    ∧ (¬ a.task.reward_threshold < r →
        HumanAgent.update_progress cc a r resp false = a) := by
  by_cases h : a.task.reward_threshold < r
  · simp [HumanAgent.update_progress, h]
  · simp [HumanAgent.update_progress, h]

/-- C2 witness: at reward 1 against threshold 2 the agent is unchanged. -/
theorem update_progress_default_spec_witness :
    HumanAgent.update_progress (fun a _ => a) wAgent 1 "resp" false = wAgent :=
  (update_progress_default_spec (fun a _ => a) wAgent 1 "resp").2 (by decide)

/-- C3: the summarization task scores by exactly two weighted reward models,
rouge and relevance, each with weight 1, in both the reward definition
(rouge with ngram rouge-l and metric f) and the penalty definition (rouge
with ngram rouge-1 and metric f). -/
theorem summarization_ensemble_spec :
    SummarizationTask.reward_definition.map (List.lookup "name")
        = [some (.str "rouge"), some (.str "relevance")]
    ∧ SummarizationTask.penalty_definition.map (List.lookup "name")
        = [some (.str "rouge"), some (.str "relevance")]
    ∧ SummarizationTask.reward_definition.map (List.lookup "weight")
        = [some (.num 1), some (.num 1)]
    ∧ SummarizationTask.penalty_definition.map (List.lookup "weight")
        = [some (.num 1), some (.num 1)]
    ∧ SummarizationTask.reward_definition.map (List.lookup "ngram")
        = [some (.str "rouge-l"), none]
    ∧ SummarizationTask.penalty_definition.map (List.lookup "ngram")
        = [some (.str "rouge-1"), none]
    ∧ SummarizationTask.reward_definition.map (List.lookup "metric")
        = [some (.str "f"), none]
    ∧ SummarizationTask.penalty_definition.map (List.lookup "metric")
        = [some (.str "f"), none] := by
  decide

/-- C10: constructing a `HumanAgent` with an explicit (non-`None`) persona
never stores the supplied persona: the only assignment of `self.persona`
sits in the `persona is None` branch, so the later read of
`self.persona.mood` raises `AttributeError`, whatever the other arguments
and oracles are. -/
theorem humanagent_init_explicit_persona_spec
    (cp : Persona) (fmt : String → Persona → TaskState → String)
    (llm : String → String) (task : TaskState) (tmpl : Option String)
    (p : Persona) (bc : Bool) :
    HumanAgent.init cp fmt llm task tmpl (some p) bc
      = Except.error "AttributeError: HumanAgent object has no attribute persona" :=
  rfl

/-- C6: the zephyr miner's `forward` always returns the synapse (roles and
messages untouched) with `completion` set: to the model's response to the
last element of `synapse.messages` when the model call succeeds, and to
`"Error: "` followed by the exception message when any exception is raised
(including the `IndexError` of an empty message list); no exception escapes. -/
theorem zephyr_forward_spec (q : String → Except String String)
    (s : PromptingSyn) :
    ((ZephyrMiner.forward q s).roles = s.roles
      ∧ (ZephyrMiner.forward q s).messages = s.messages)
    ∧ (∀ p, s.messages.getLast? = some p →
        (∀ r, q p = Except.ok r → (ZephyrMiner.forward q s).completion = r)
        ∧ (∀ e, q p = Except.error e →
            (ZephyrMiner.forward q s).completion = "Error: " ++ e))
    ∧ (s.messages = [] →
        (ZephyrMiner.forward q s).completion
          = "Error: " ++ "list index out of range") := by
  refine ⟨?_, ?_, ?_⟩
  · unfold ZephyrMiner.forward
    cases hl : s.messages.getLast? with
    | none => simp
    | some p => cases hq : q p <;> simp [hq]
  · intro p hp
    constructor
    · intro r hr
      simp [ZephyrMiner.forward, hp, hr]
    · intro e he
      simp [ZephyrMiner.forward, hp, he]
  · intro hnil
    simp [ZephyrMiner.forward, hnil]

/-- C6 witness: a singleton message list with a succeeding model call yields
that response as the completion, and a failing model call yields the
error-prefixed completion. -/
theorem zephyr_forward_spec_witness :
    (ZephyrMiner.forward (fun _ => Except.ok "ans")
        { roles := ["user"], messages := ["m"], completion := "" }).completion
      = "ans"
    ∧ (ZephyrMiner.forward (fun _ => Except.error "boom")
        { roles := ["user"], messages := ["m"], completion := "" }).completion
      = "Error: " ++ "boom" :=
  ⟨((zephyr_forward_spec (fun _ => Except.ok "ans")
      { roles := ["user"], messages := ["m"], completion := "" }).2.1
        "m" rfl).1 "ans" rfl,
    ((zephyr_forward_spec (fun _ => Except.error "boom")
      { roles := ["user"], messages := ["m"], completion := "" }).2.1
        "m" rfl).2 "boom" rfl⟩

/-- Auxiliary bound on the conversation loop: from any `calls` and `rounds`
the loop returns at most `calls + 1 + (max_turns + 1 - rounds)`, by
induction on an upper bound of the remaining rounds. -/
theorem forwardLoop_le (f d : Nat → Bool) (m : Nat) :
    ∀ (n r c : Nat), m + 1 - r ≤ n →
      forwardLoop f d m c r ≤ c + 1 + (m + 1 - r) := by
  intro n
  induction n with
  | zero =>
    intro r c h
    unfold forwardLoop
    split
    · omega
    · rw [dif_pos (Or.inl (by omega))]
      omega
  | succ n ih =>
    intro r c h
    unfold forwardLoop
    split
    · omega
    · by_cases hb : m < r ∨ d c = true
      · rw [dif_pos hb]
        omega
      · rw [dif_neg hb]
        have hrec := ih (r + 1) (c + 1) (by omega)
        push_neg at hb
        omega

/-- C1: the conversation loop of `forward` terminates: it exits at once when
the agent is finished, exits after one more step when the rounds counter
exceeds `max_turns`, exits after one more step when the termination draw
fires, and in every case runs `run_step` at most `max_turns + 2` times. -/
theorem forward_loop_spec (f d : Nat → Bool) (m : Nat) :
    forwardLoop f d m 0 0 ≤ m + 2
    ∧ (∀ c r, f c = true → forwardLoop f d m c r = c)
    ∧ (∀ c r, f c = false → m < r → forwardLoop f d m c r = c + 1)
    ∧ (∀ c r, f c = false → d c = true → forwardLoop f d m c r = c + 1) := by
  refine ⟨?_, ?_, ?_, ?_⟩
  · have h := forwardLoop_le f d m (m + 1) 0 0 (by omega)
    omega
  · intro c r hf
    unfold forwardLoop
    simp [hf]
  · intro c r hf hr
    unfold forwardLoop
    rw [if_neg (by simp [hf]), dif_pos (Or.inl hr)]
  · intro c r hf hd
    unfold forwardLoop
    rw [if_neg (by simp [hf]), dif_pos (Or.inr hd)]

/-- C1 witness: concrete loops exit at the finished guard, at the rounds
bound, and at the termination draw. -/
theorem forward_loop_spec_witness :
    forwardLoop (fun _ => true) (fun _ => false) 3 5 0 = 5
    ∧ forwardLoop (fun _ => false) (fun _ => false) 3 5 4 = 6
    ∧ forwardLoop (fun _ => false) (fun _ => true) 3 5 0 = 6 :=
  ⟨(forward_loop_spec (fun _ => true) (fun _ => false) 3).2.1 5 0 rfl,
    (forward_loop_spec (fun _ => false) (fun _ => false) 3).2.2.1 5 4 rfl
      (by omega),
    (forward_loop_spec (fun _ => false) (fun _ => true) 3).2.2.2 5 0 rfl rfl⟩

/-- Auxiliary: every uid queried in any round of a conversation avoids the
exclusion list that round started from. -/
theorem forwardRounds_avoid (k : Nat) :
    ∀ (os : List (List Nat)) (exclude : List Nat),
      ∀ l ∈ forwardRounds k os exclude, ∀ u ∈ l, u ∉ exclude := by
  intro os
  induction os with
  | nil =>
    intro exclude l hl
    simp [forwardRounds] at hl
  | cons o os ih =>
    intro exclude l hl u hu
    simp only [forwardRounds, List.mem_cons] at hl
    rcases hl with rfl | hl
    · have hf : u ∈ o.filter (fun v => decide (v ∉ exclude)) :=
        List.mem_of_mem_take hu
      simpa using (List.mem_filter.mp hf).2
    · have hv := ih (exclude ++ run_step_uids o k exclude) l hl u hu
      intro hx
      exact hv (List.mem_append.mpr (Or.inl hx))

/-- Auxiliary: the per-round uid lists of one conversation are pairwise
disjoint, because each round excludes everything queried before it. -/
theorem forwardRounds_pairwise (k : Nat) :
    ∀ (os : List (List Nat)) (exclude : List Nat),
      (forwardRounds k os exclude).Pairwise (fun a b => ∀ u ∈ b, u ∉ a) := by
  intro os
  induction os with
  | nil => intro exclude; simp [forwardRounds]
  | cons o os ih =>
    intro exclude
    simp only [forwardRounds]
    refine List.Pairwise.cons ?_ (ih _)
    intro b hb u hu
    have hv := forwardRounds_avoid k os
      (exclude ++ run_step_uids o k exclude) b hb u hu
    intro hx
    exact hv (List.mem_append.mpr (Or.inr hx))

/-- C4: one step queries `k` sampled uids none of which is excluded (exactly
`k` whenever enough non-excluded candidates remain); a successful `run_step`
dispatches to precisely those uids with the configured timeout; and the
rounds of one conversation accumulate their uids into the exclusion list, so
no uid is queried in two different rounds. -/
theorem run_step_sampling_spec
    (order : List Nat) (os : List (List Nat)) (k : Nat) (exclude : List Nat)
    (respond : Nat → String) (rewardOne : String → String → ℚ)
    (cc : AgentState → String → AgentState) (alpha : ℚ) (scores : Nat → ℚ)
    (agent : AgentState) (timeout : ℚ) :
    (∀ u ∈ run_step_uids order k exclude, u ∉ exclude)
    ∧ (k ≤ (order.filter (fun u => decide (u ∉ exclude))).length →
        (run_step_uids order k exclude).length = k)
    ∧ (∀ res,
        run_step respond rewardOne cc alpha scores agent order k timeout exclude
          = Except.ok res →
        res.uids = run_step_uids order k exclude ∧ res.timeoutUsed = timeout)
    ∧ (forwardRounds k os exclude).Pairwise (fun a b => ∀ u ∈ b, u ∉ a) := by
  refine ⟨?_, ?_, ?_, forwardRounds_pairwise k os exclude⟩
  · intro u hu
    have hf : u ∈ order.filter (fun v => decide (v ∉ exclude)) :=
      List.mem_of_mem_take hu
    simpa using (List.mem_filter.mp hf).2
  · intro hk
    simp only [run_step_uids, get_random_uids, List.length_take]
    omega
  · intro res h
    simp only [run_step] at h
    split at h
    · exact absurd h (by simp)
    · rw [Except.ok.injEq] at h
      subst h
      exact ⟨rfl, rfl⟩

/-- The step result of a concrete `run_step` call: order `[3, 5]`, `k = 1`,
uid 3 excluded, constant responder and reward 1, threshold 2. -/
def wRes : StepResult :=
  { uids := [5]
    timeoutUsed := 15
    synapseSent := { roles := ["user"], messages := ["q"], completion := "" }
    rewards := [1]
    agentAfter := wAgent
    scoresAfter := update_scores (1 / 2) (fun _ => 0) [5] [1] }

/-- C4 witness: with one non-excluded candidate and `k = 1`, exactly one uid
is sampled, and the concrete successful step dispatched to it with the
given timeout. -/
theorem run_step_sampling_spec_witness :
    (run_step_uids [3, 5] 1 [3]).length = 1
    ∧ wRes.uids = run_step_uids [3, 5] 1 [3] ∧ wRes.timeoutUsed = 15 :=
  ⟨(run_step_sampling_spec [3, 5] [] 1 [3] (fun _ => "r") (fun _ _ => 1)
      (fun a _ => a) (1 / 2) (fun _ => 0) wAgent 15).2.1 (by decide),
    (run_step_sampling_spec [3, 5] [] 1 [3] (fun _ => "r") (fun _ _ => 1)
      (fun a _ => a) (1 / 2) (fun _ => 0) wAgent 15).2.2.1 wRes rfl⟩

/-- Auxiliary: the moving-average update leaves the score of any uid that
was not queried unchanged. -/
theorem update_scores_not_queried (alpha : ℚ) (scores : Nat → ℚ)
    (uids : List Nat) (rewards : List ℚ) (j : Nat) (hj : j ∉ uids) :
    update_scores alpha scores uids rewards j = scores j := by
  unfold update_scores
  have hnone : (uids.zip rewards).find? (fun p => p.1 == j) = none := by
    apply List.find?_eq_none.mpr
    intro p hp
    obtain ⟨a, b⟩ := p
    have hmem := List.of_mem_zip hp
    simp only [beq_iff_eq]
    intro hpj
    exact hj (hpj ▸ hmem.1)
  rw [hnone]

/-- C7: a successful step passes exactly the sampled uids, with one reward
per sampled uid, to the moving-average update, and the resulting scores
agree with the old scores on every uid that was not queried in the step. -/
theorem run_step_scores_spec
    (respond : Nat → String) (rewardOne : String → String → ℚ)
    (cc : AgentState → String → AgentState) (alpha : ℚ) (scores : Nat → ℚ)
    (agent : AgentState) (order : List Nat) (k : Nat) (timeout : ℚ)
    (exclude : List Nat) (res : StepResult)
    (h : run_step respond rewardOne cc alpha scores agent order k timeout exclude
        = Except.ok res) :
    res.uids = run_step_uids order k exclude
    ∧ res.rewards.length = res.uids.length
    ∧ res.scoresAfter = update_scores alpha scores res.uids res.rewards
    ∧ ∀ j, j ∉ res.uids → res.scoresAfter j = scores j := by
  simp only [run_step] at h
  split at h
  · exact absurd h (by simp)
  · rw [Except.ok.injEq] at h
    subst h
    refine ⟨rfl, by simp, rfl, ?_⟩
    intro j hj
    exact update_scores_not_queried alpha scores _ _ j hj

/-- C7 witness: in the concrete step that queried only uid 5, the score of
uid 7 is untouched. -/
theorem run_step_scores_spec_witness : wRes.scoresAfter 7 = 0 :=
  (run_step_scores_spec (fun _ => "r") (fun _ _ => 1) (fun a _ => a) (1 / 2)
      (fun _ => 0) wAgent [3, 5] 1 15 [3] wRes rfl).2.2.2 7 (by decide)

/-- C5 counterexample: for an agent whose accumulated history holds two
messages, the synapse built by `run_step` does not carry that history —
neither its message list nor its role list matches the agent's. -/
theorem run_step_synapse_not_history :
    ¬ ((run_step_synapse wAgent2).messages
          = wAgent2.messages.map Message.content
        ∧ (run_step_synapse wAgent2).roles
          = wAgent2.messages.map Message.role) := by
  decide

/-- C5 (amended): the synapse sent by `run_step` carries a single role
`"user"` and a single message, the agent's current challenge — not the
accumulated multi-turn history; every successful `run_step` dispatches
exactly this synapse. -/
theorem run_step_synapse_spec
    (respond : Nat → String) (rewardOne : String → String → ℚ)
    (cc : AgentState → String → AgentState) (alpha : ℚ) (scores : Nat → ℚ)
    (agent : AgentState) (order : List Nat) (k : Nat) (timeout : ℚ)
    (exclude : List Nat) :
    (run_step_synapse agent).roles = ["user"]
    ∧ (run_step_synapse agent).messages = [agent.challenge]
    ∧ (∀ res,
        run_step respond rewardOne cc alpha scores agent order k timeout exclude
          = Except.ok res →
        res.synapseSent = run_step_synapse agent) := by
  refine ⟨rfl, rfl, ?_⟩
  intro res h
  simp only [run_step] at h
  split at h
  · exact absurd h (by simp)
  · rw [Except.ok.injEq] at h
    subst h
    rfl

/-- C5 witness: the concrete successful step dispatched the single-message
challenge synapse. -/
theorem run_step_synapse_spec_witness :
    wRes.synapseSent = run_step_synapse wAgent :=
  (run_step_synapse_spec (fun _ => "r") (fun _ _ => 1) (fun a _ => a) (1 / 2)
      (fun _ => 0) wAgent [3, 5] 1 15 [3]).2.2 wRes rfl

namespace RelevanceRewardModel

/-- Auxiliary: a self dot product is nonnegative. -/
theorem dotQ_self_nonneg {d : Nat} (x : Fin d → ℚ) : 0 ≤ dotQ x x :=
  Finset.sum_nonneg fun i _ => mul_self_nonneg (x i)

/-- Auxiliary Cauchy-Schwarz bound: the dot product of two embeddings is at
most the product of their Euclidean norms in absolute value. -/
theorem abs_dotQ_le {d : Nat} (x y : Fin d → ℚ) :
    |((dotQ x y : ℚ) : ℝ)|
      ≤ Real.sqrt ((dotQ x x : ℚ) : ℝ) * Real.sqrt ((dotQ y y : ℚ) : ℝ) := by
  have hxx : (0 : ℝ) ≤ ((dotQ x x : ℚ) : ℝ) := by
    exact_mod_cast dotQ_self_nonneg x
  have hyy : (0 : ℝ) ≤ ((dotQ y y : ℚ) : ℝ) := by
    exact_mod_cast dotQ_self_nonneg y
  have e1 : ((dotQ x y : ℚ) : ℝ) = ∑ i, (x i : ℝ) * (y i : ℝ) := by
    unfold dotQ
    push_cast
    rfl
  have e2 : ((dotQ x x : ℚ) : ℝ) = ∑ i, (x i : ℝ) ^ 2 := by
    unfold dotQ
    push_cast
    simp [sq]
  have e3 : ((dotQ y y : ℚ) : ℝ) = ∑ i, (y i : ℝ) ^ 2 := by
    unfold dotQ
    push_cast
    simp [sq]
  have hcs : ((dotQ x y : ℚ) : ℝ) ^ 2
      ≤ ((dotQ x x : ℚ) : ℝ) * ((dotQ y y : ℚ) : ℝ) := by
    rw [e1, e2, e3]
    exact Finset.sum_mul_sq_le_sq_mul_sq Finset.univ
      (fun i => (x i : ℝ)) (fun i => (y i : ℝ))
  calc |((dotQ x y : ℚ) : ℝ)|
      = Real.sqrt (((dotQ x y : ℚ) : ℝ) ^ 2) := (Real.sqrt_sq_eq_abs _).symm
    _ ≤ Real.sqrt (((dotQ x x : ℚ) : ℝ) * ((dotQ y y : ℚ) : ℝ)) :=
        Real.sqrt_le_sqrt hcs
    _ = Real.sqrt ((dotQ x x : ℚ) : ℝ) * Real.sqrt ((dotQ y y : ℚ) : ℝ) :=
        Real.sqrt_mul hxx _

/-- Auxiliary: with the `eps`-clamped denominator, every cosine similarity
lies in the interval from -1 to 1. -/
theorem cosine_similarity_bounds {d : Nat} (x y : Fin d → ℚ) :
    -1 ≤ cosine_similarity x y ∧ cosine_similarity x y ≤ 1 := by
  have heps : (0 : ℝ) < 1 / 10 ^ 8 := by norm_num
  have hx0 : (0 : ℝ) ≤ Real.sqrt ((dotQ x x : ℚ) : ℝ) := Real.sqrt_nonneg _
  have hy0 : (0 : ℝ) ≤ Real.sqrt ((dotQ y y : ℚ) : ℝ) := Real.sqrt_nonneg _
  have hdenpos : (0 : ℝ)
      < max (Real.sqrt ((dotQ x x : ℚ) : ℝ)) (1 / 10 ^ 8)
          * max (Real.sqrt ((dotQ y y : ℚ) : ℝ)) (1 / 10 ^ 8) :=
    mul_pos (lt_max_of_lt_right heps) (lt_max_of_lt_right heps)
  have hnum : |((dotQ x y : ℚ) : ℝ)|
      ≤ max (Real.sqrt ((dotQ x x : ℚ) : ℝ)) (1 / 10 ^ 8)
          * max (Real.sqrt ((dotQ y y : ℚ) : ℝ)) (1 / 10 ^ 8) := by
    refine le_trans (abs_dotQ_le x y) ?_
    exact mul_le_mul (le_max_left _ _) (le_max_left _ _) hy0
      (le_trans hx0 (le_max_left _ _))
  have habs : |cosine_similarity x y| ≤ 1 := by
    unfold cosine_similarity
    rw [abs_div, abs_of_pos hdenpos]
    exact div_le_one_of_le₀ hnum hdenpos.le
  exact abs_le.mp habs

end RelevanceRewardModel

/-- C8: for every reference and completion list, the relevance reward output
has one reward per completion — the `i`-th being the cosine similarity
between the reference embedding and the `i`-th completion embedding, hence
in the interval from -1 to 1 — and as many timings as rewards. -/
theorem relevance_reward_spec {d : Nat} (encode : String → Fin d → ℚ)
    (timing : Nat → ℝ) (threshold : Option ℚ) (reference : String)
    (completions : List String) :
    (RelevanceRewardModel.reward encode timing threshold reference
        completions).rewards.length = completions.length
    ∧ (RelevanceRewardModel.reward encode timing threshold reference
        completions).timings.length
      = (RelevanceRewardModel.reward encode timing threshold reference
        completions).rewards.length
    ∧ (RelevanceRewardModel.reward encode timing threshold reference
        completions).rewards
      = completions.map (fun c =>
          RelevanceRewardModel.cosine_similarity (encode reference) (encode c))
    ∧ ∀ r ∈ (RelevanceRewardModel.reward encode timing threshold reference
        completions).rewards, -1 ≤ r ∧ r ≤ 1 := by
  refine ⟨by simp [RelevanceRewardModel.reward],
    by simp [RelevanceRewardModel.reward], rfl, ?_⟩
  intro r hr
  simp only [RelevanceRewardModel.reward, List.mem_map] at hr
  obtain ⟨c, -, rfl⟩ := hr
  exact RelevanceRewardModel.cosine_similarity_bounds _ _

/-- C8 witness: with a constant one-dimensional embedding, the single reward
of a one-completion batch lies between -1 and 1. -/
theorem relevance_reward_spec_witness :
    -1 ≤ RelevanceRewardModel.cosine_similarity
        (fun _ : Fin 1 => (1 : ℚ)) (fun _ => 1)
    ∧ RelevanceRewardModel.cosine_similarity
        (fun _ : Fin 1 => (1 : ℚ)) (fun _ => 1) ≤ 1 :=
  (relevance_reward_spec (fun _ => fun _ : Fin 1 => (1 : ℚ)) (fun _ => 0)
      none "a" ["b"]).2.2.2 _ (by simp [RelevanceRewardModel.reward])

end Prompting
